import Mathlib

/-!
Verification of the cable-length routing engine of the WWTpyRevit repository.

The engine has two halves:

* "WWT Tools.extension/.../Cable Length Calculation.pushbutton/script.py"
  (the pyRevit side) extracts infrastructure segments, synthesizes L-shaped
  jumper edges from each electrical device to its nearest segment, merges
  coordinates into a vertex list (function add_vertex) and exports a
  vertices/edges/start_points/end_point document.

* "WWT Tools.extension/.../Cable Length Calculation.pushbutton/calc_shortest.py"
  reads that document, rebuilds the graph with duplicate-edge suppression,
  binds the end point and every start point to graph vertices (bridging to the
  nearest vertex when there is no exact match), and runs a shortest-path query
  per device, reporting the geometric length of each found path.

Modelling conventions used throughout this file:

* Python float coordinates are idealized as exact rationals (Point has three
  rational fields).  All tolerance comparisons in the source are embedded
  verbatim over the rationals.
* Euclidean distance (math.sqrt based dist3 / distance3d in the source) is
  irrational in general, so the calc_shortest model is parameterized by an
  abstract distance function d into a linear ordered field K.  Every use of a
  distance by the source is either an accumulation (path length) or an order
  comparison, both of which are stated for arbitrary d; instantiating K with
  the reals and d with the true Euclidean distance recovers the source
  exactly.  Where the embedding itself must pick a concrete comparable value
  (the nearest-segment scan of script.py), it compares squared Euclidean
  distances, which order exactly as the distances themselves do since sqrt is
  strictly monotone on nonnegative reals.
* External-library failure branches (topologicpy Vertex/Edge constructors
  raising, wire vertices without coordinates) are modelled as not occurring:
  the corresponding try/except arms in the source only guard against the
  third-party API misbehaving, not against any input handled by this code.
* The per-run aggregate statistics that no claim mentions (min/max/avg path
  length and timing) are omitted from the state; the success/fail/bridged/
  unmatched counters and the result records are embedded in full.
-/

namespace WWT

/-- Three dimensional point with exact rational coordinates, idealizing the
Python float triples used for vertices throughout both scripts. -/
structure Point where
  x : ℚ
  y : ℚ
  z : ℚ
deriving DecidableEq

/-- Squared Euclidean distance.  The source computes the Euclidean distance
itself (dist3 in calc_shortest.py, distance3d in script.py); the square is the
exact-rational stand-in used wherever only the ordering of distances matters. -/
def distSq (a b : Point) : ℚ :=
  (a.x - b.x) ^ 2 + (a.y - b.y) ^ 2 + (a.z - b.z) ^ 2

/-- MATCH_TOL = 1e-9 from calc_shortest.py: tolerance for matching start/end
coordinates to existing vertices. -/
def MATCH_TOL : ℚ := 1 / 1000000000

/-- Retry tolerance 1e-7 used by calc_shortest.py when mapping path
coordinates back to vertex indices (second coord_match_index call). -/
def RETRY_TOL : ℚ := 1 / 10000000

/-- MERGE_TOL = 1e-5 from script.py: vertex merge tolerance of add_vertex. -/
def MERGE_TOL : ℚ := 1 / 100000

/-- Default tolerance t = 1e-9 of the isclose helper in script.py. -/
def ISCLOSE_TOL : ℚ := 1 / 1000000000

/-- Per-axis closeness test, embedding isclose(a, b, t=1e-9) of script.py. -/
def isclose (a b : ℚ) : Bool :=
  decide (|a - b| ≤ ISCLOSE_TOL)

/-- Predicate of coord_match_index in calc_shortest.py: all three axis
differences within tol. -/
def coordWithin (c v : Point) (tol : ℚ) : Bool :=
  decide (|v.x - c.x| ≤ tol) && decide (|v.y - c.y| ≤ tol) && decide (|v.z - c.z| ≤ tol)

/-- Scan helper for coord_match_index: first index (counting from i) whose
vertex is within tol of the coordinate on every axis. -/
def coordMatchAux (c : Point) (tol : ℚ) : List Point → Nat → Option Nat
  | [], _ => none
  | v :: rest, i => if coordWithin c v tol then some i else coordMatchAux c tol rest (i + 1)

/-- Embedding of coord_match_index(coord, vertices_data, tol) from
calc_shortest.py: first vertex index within tol on every axis, if any. -/
def coord_match_index (c : Point) (verts : List Point) (tol : ℚ) : Option Nat :=
  coordMatchAux c tol verts 0

section AbstractDistance

variable {K : Type*} [LinearOrderedField K]

/-- Scan helper for nearest_vertex_index: running (best index, best distance)
pair, replaced only on a strictly smaller distance, exactly as the source's
"if best_d is None or d < best_d". -/
def nearestAux (d : Point → Point → K) (c : Point) :
    List Point → Nat → Option (Nat × K) → Option (Nat × K)
  | [], _, best => best
  | v :: rest, i, best =>
    let dv := d c v
    match best with
    | none => nearestAux d c rest (i + 1) (some (i, dv))
    | some (bi, bd) =>
      if dv < bd then nearestAux d c rest (i + 1) (some (i, dv))
      else nearestAux d c rest (i + 1) (some (bi, bd))

/-- Embedding of nearest_vertex_index(coord, vertices_data) from
calc_shortest.py: index of the d-nearest vertex together with its distance,
or none for an empty vertex list (the source returns (None, None)).  Ties are
won by the first vertex in list order, as in the source. -/
def nearest_vertex_index (d : Point → Point → K) (c : Point) (verts : List Point) :
    Option (Nat × K) :=
  nearestAux d c verts 0 none

end AbstractDistance

/-- Unordered key of a vertex-index pair: "(i2,j2) if i2<j2 else (j2,i2)" from
the duplicate-suppression loop of calc_shortest.py. -/
def edgeKeyUnord (i j : Nat) : Nat × Nat :=
  if i < j then (i, j) else (j, i)

/-- Accumulator of the edge-construction loop of calc_shortest.py
(lines 172-205): edges kept so far, seen unordered keys, and the
skipped_duplicate / skipped_invalid counters. -/
structure EdgeBuild where
  used : List (Nat × Nat)
  seen : List (Nat × Nat)
  dup : Nat
  invalid : Nat
deriving DecidableEq

/-- One iteration of the edge-construction loop of calc_shortest.py: skip an
edge whose endpoint index is negative or out of range, skip self edges, skip
unordered duplicates (IGNORE_DUPLICATE_EDGES is the constant True in the
source), otherwise keep the edge in input orientation.  Vertex objects are
modelled as always successfully constructed (the source's None entries and
Edge.ByVertices exceptions arise only from the external topologicpy API). -/
def edgeStep (n : Nat) (st : EdgeBuild) (e : Int × Int) : EdgeBuild :=
  if e.1 < 0 ∨ e.2 < 0 ∨ (n : Int) ≤ e.1 ∨ (n : Int) ≤ e.2 then
    { st with invalid := st.invalid + 1 }
  else if e.1.toNat = e.2.toNat then { st with invalid := st.invalid + 1 }
  else if edgeKeyUnord e.1.toNat e.2.toNat ∈ st.seen then { st with dup := st.dup + 1 }
  else
    { st with
        used := st.used ++ [(e.1.toNat, e.2.toNat)]
        seen := st.seen ++ [edgeKeyUnord e.1.toNat e.2.toNat] }

/-- Embedding of the whole edge-construction loop of calc_shortest.py over the
input edge list, for a vertex list of length n. -/
def buildEdges (n : Nat) (edges_data : List (Int × Int)) : EdgeBuild :=
  edges_data.foldl (edgeStep n) ⟨[], [], 0, 0⟩

/-- Per-device status strings of calc_shortest.py. -/
inductive Status where
  | ok
  | noPath
  | unmatchedStart
  | bridgedStart
deriving DecidableEq

/-- Status of the end-point binding ("exact" or "bridged_end"). -/
inductive EndStatus where
  | exact
  | bridgedEnd
deriving DecidableEq

/-- Run-fatal conditions of calc_shortest.py, each a sys.exit(1) before the
device loop: empty vertices or edges list, missing end_point, end point
neither matched nor bridgeable. -/
inductive RunError where
  | emptyInput
  | missingEnd
  | endUnbound
deriving DecidableEq

/-- One start_points entry of the input document: element id plus an optional
raw coordinate.  A Python-falsy point field (absent, null or the empty list)
is modelled as none, matching the single "if not coord" guard that handles
all of those cases identically. -/
structure StartPoint where
  element_id : Int
  point : Option Point
deriving DecidableEq

/-- Input document of calc_shortest.py (topologic.JSON). -/
structure InputDoc where
  vertices : List Point
  edges : List (Int × Int)
  start_points : List StartPoint
  end_point : Option Point
deriving DecidableEq

/-- One per-device result record of calc_shortest.py, with the length generic
in the distance codomain K.  vertex_indices uses the source's -1 sentinel for
coordinates that match no vertex index. -/
structure DeviceResult (K : Type) where
  start_index : Nat
  element_id : Int
  length : Option K
  vertex_indices : List Int
  vertex_path_xyz : List Point
  status : Status
deriving DecidableEq

/-- Configuration constants of calc_shortest.py, kept as parameters so that
both polarities of the ALLOW_BRIDGING_* flags present in the source can be
stated.  The source fixes allow_bridging_starts = allow_bridging_end = True
and bridging_max_dist = 5.0 feet. -/
structure Config (K : Type) where
  allow_bridging_starts : Bool
  allow_bridging_end : Bool
  bridging_max_dist : K
deriving DecidableEq

/-- Mutable state of the device loop of calc_shortest.py: the growing vertex
and edge lists (bridging appends to both), the result records, and the
success / fail / bridged_starts / unmatched_starts counters.  solveCalls
counts invocations of Graph.ShortestPath; it is verification instrumentation
for the claim that no path computation is attempted for unmatched devices. -/
structure LoopState (K : Type) where
  verts : List Point
  edges : List (Nat × Nat)
  results : List (DeviceResult K)
  success : Nat
  fail : Nat
  bridged_starts : Nat
  unmatched_starts : Nat
  solveCalls : Nat
deriving DecidableEq

/-- Final output of a run: the result records in device order, the counters,
the end binding status, and the final vertex/edge lists (kept by the source in
vertices_data and the topologic graph object; exposed here so that graph
invariants can be stated about the completed run). -/
structure Output (K : Type) where
  results : List (DeviceResult K)
  paths_success : Nat
  paths_failed : Nat
  bridged_starts : Nat
  unmatched_starts : Nat
  solve_calls : Nat
  end_status : EndStatus
  final_vertices : List Point
  final_edges : List (Nat × Nat)
deriving DecidableEq

/-- Best-effort mapping of a path coordinate back to an original vertex index
(calc_shortest.py lines 379-385): first try MATCH_TOL, then the looser
RETRY_TOL, else the -1 sentinel. -/
def indexOfCoord (verts : List Point) (c : Point) : Int :=
  match coord_match_index c verts MATCH_TOL with
  | some i => (i : Int)
  | none =>
    match coord_match_index c verts RETRY_TOL with
    | some i => (i : Int)
    | none => -1

section MainModel

variable {K : Type} [LinearOrderedField K]

/-- Metric length of a path: sum of d over consecutive coordinate pairs,
embedding the "compute length" loop of calc_shortest.py (pl accumulation). -/
def pathLen (d : Point → Point → K) : List Point → K
  | [] => 0
  | [_] => 0
  | a :: b :: rest => d a b + pathLen d (b :: rest)

/-- Type of the shortest-path oracle standing for topologicpy's
Graph.ShortestPath: given the current vertex and edge lists and bound
start/end indices, optionally return the path's vertex coordinates (the
coordinates of the returned wire's vertices, in order). -/
abbrev Solver := List Point → List (Nat × Nat) → Nat → Nat → Option (List Point)

/-- Embedding of the start-point binding of calc_shortest.py (lines 284-311):
exact coordinate match wins with the running status "ok"; otherwise, with
bridging enabled, a nearest vertex within bridging_max_dist yields a new
vertex at the query coordinate plus a bridge edge to the nearest vertex and
status "bridged_start"; otherwise no vertex index and status
"unmatched_start" (incrementing unmatched_starts exactly where the source
does).  Returns the updated state, the bound index if any, and the status
variable as of line 312. -/
def bindStart (cfg : Config K) (d : Point → Point → K) (st : LoopState K) (coord : Point) :
    LoopState K × Option Nat × Status :=
  match coord_match_index coord st.verts MATCH_TOL with
  | some i => (st, some i, Status.ok)
  | none =>
    if cfg.allow_bridging_starts then
      match nearest_vertex_index d coord st.verts with
      | some (ni, nd) =>
        if nd ≤ cfg.bridging_max_dist then
          ({ st with
              verts := st.verts ++ [coord]
              edges := st.edges ++ [(ni, st.verts.length)]
              bridged_starts := st.bridged_starts + 1 },
            some st.verts.length, Status.bridgedStart)
        else
          ({ st with unmatched_starts := st.unmatched_starts + 1 }, none, Status.unmatchedStart)
      | none =>
        ({ st with unmatched_starts := st.unmatched_starts + 1 }, none, Status.unmatchedStart)
    else
      ({ st with unmatched_starts := st.unmatched_starts + 1 }, none, Status.unmatchedStart)

/-- Embedding of the shortest-path call and result recording of
calc_shortest.py (lines 327-394) for a device whose start bound to vertex
svid with running status.  A none wire records no_path; otherwise the wire's
coordinates are recorded with their d-length and best-effort vertex
indices. -/
def solveRecord (d : Point → Point → K) (solve : Solver) (endVid : Nat)
    (st : LoopState K) (si : Nat) (sp : StartPoint) (svid : Nat) (status : Status) :
    LoopState K :=
  let st2 : LoopState K := { st with solveCalls := st.solveCalls + 1 }
  match solve st2.verts st2.edges svid endVid with
  | none =>
    { st2 with
        fail := st2.fail + 1
        results := st2.results ++ [⟨si, sp.element_id, none, [], [], Status.noPath⟩] }
  | some coords =>
    { st2 with
        success := st2.success + 1
        results := st2.results ++
          [⟨si, sp.element_id, some (pathLen d coords),
            coords.map (indexOfCoord st2.verts), coords, status⟩] }

/-- Embedding of one iteration of the device loop of calc_shortest.py
(lines 262-394): a missing coordinate is recorded as unmatched_start and the
loop continues; otherwise the start is bound (exact / bridged / unmatched)
and, when bound, the shortest-path oracle runs and its outcome is recorded. -/
def processDevice (cfg : Config K) (d : Point → Point → K) (solve : Solver) (endVid : Nat)
    (st : LoopState K) (si : Nat) (sp : StartPoint) : LoopState K :=
  match sp.point with
  | none =>
    { st with
        unmatched_starts := st.unmatched_starts + 1
        fail := st.fail + 1
        results := st.results ++ [⟨si, sp.element_id, none, [], [], Status.unmatchedStart⟩] }
  | some coord =>
    match (bindStart cfg d st coord).2.1 with
    | none =>
      { (bindStart cfg d st coord).1 with
          fail := (bindStart cfg d st coord).1.fail + 1
          results := (bindStart cfg d st coord).1.results ++
            [⟨si, sp.element_id, none, [], [], (bindStart cfg d st coord).2.2⟩] }
    | some svid =>
      solveRecord d solve endVid (bindStart cfg d st coord).1 si sp svid
        (bindStart cfg d st coord).2.2

/-- The device loop itself: fold of processDevice over the indexed start
points. -/
def deviceFold (cfg : Config K) (d : Point → Point → K) (solve : Solver) (endVid : Nat)
    (st : LoopState K) (l : List (Nat × StartPoint)) : LoopState K :=
  l.foldl (fun s p => processDevice cfg d solve endVid s p.1 p.2) st

/-- Embedding of the run-level validation and end-point binding of
calc_shortest.py (lines 155-250): empty vertices or edges and a missing
end_point are fatal; the edge list is built with duplicate suppression; the
end point is bound exactly, or bridged to the nearest vertex when within
bridging_max_dist (appending the end vertex and a bridge edge), and otherwise
the run aborts.  Returns the initial vertex list, edge list, end vertex index
and end status for the device loop. -/
def bindEnd (cfg : Config K) (d : Point → Point → K) (doc : InputDoc) :
    Except RunError (List Point × List (Nat × Nat) × Nat × EndStatus) :=
  if doc.vertices.isEmpty || doc.edges.isEmpty then Except.error RunError.emptyInput
  else
    match doc.end_point with
    | none => Except.error RunError.missingEnd
    | some ep =>
      match coord_match_index ep doc.vertices MATCH_TOL with
      | some evid =>
        Except.ok (doc.vertices, (buildEdges doc.vertices.length doc.edges).used, evid,
          EndStatus.exact)
      | none =>
        if cfg.allow_bridging_end then
          match nearest_vertex_index d ep doc.vertices with
          | some (ni, nd) =>
            if nd ≤ cfg.bridging_max_dist then
              Except.ok (doc.vertices ++ [ep],
                (buildEdges doc.vertices.length doc.edges).used ++
                  [(ni, doc.vertices.length)],
                doc.vertices.length, EndStatus.bridgedEnd)
            else Except.error RunError.endUnbound
          | none => Except.error RunError.endUnbound
        else Except.error RunError.endUnbound

/-- The initial device-loop state over the bound graph. -/
def initState (verts : List Point) (edges : List (Nat × Nat)) : LoopState K :=
  ⟨verts, edges, [], 0, 0, 0, 0, 0⟩

/-- Packaging of the final device-loop state into the output document. -/
def mkOutput (st : LoopState K) (estat : EndStatus) : Output K :=
  ⟨st.results, st.success, st.fail, st.bridged_starts, st.unmatched_starts,
    st.solveCalls, estat, st.verts, st.edges⟩

/-- Embedding of main() of calc_shortest.py, continued: validation and end
binding, then the device loop over all start points, then the output
document. -/
def mainModel (cfg : Config K) (d : Point → Point → K) (solve : Solver) (doc : InputDoc) :
    Except RunError (Output K) :=
  match bindEnd cfg d doc with
  | Except.error e => Except.error e
  | Except.ok (verts, edges, evid, estat) =>
    Except.ok
      (mkOutput (deviceFold cfg d solve evid (initState verts edges) doc.start_points.enum)
        estat)

end MainModel

section SpecSolver

variable {K : Type} [LinearOrderedField K]

/-- Neighbors of vertex u in an undirected edge list (adjacency read off the
edge pairs in both directions). -/
def adjacentTo (edges : List (Nat × Nat)) (u : Nat) : List Nat :=
  edges.foldr
    (fun e acc => if e.1 = u then e.2 :: acc else if e.2 = u then e.1 :: acc else acc) []

/-- Unvisited vertex of minimum tentative distance, if any (first index wins
ties). -/
def pickMin (dist : List (Option K)) (visited : List Bool) : Option Nat :=
  (List.range dist.length).foldl
    (fun best i =>
      if visited.getD i true then best
      else
        match dist.getD i none with
        | none => best
        | some di =>
          match best with
          | none => some i
          | some bi =>
            match dist.getD bi none with
            | none => some i
            | some dbi => if di < dbi then some i else best)
    none

/-- Relaxation of all edges leaving u, at tentative distance du. -/
def relaxNeighbors (d : Point → Point → K) (verts : List Point) (edges : List (Nat × Nat))
    (u : Nat) (du : K) (dp : List (Option K) × List (Option Nat)) :
    List (Option K) × List (Option Nat) :=
  (adjacentTo edges u).foldl
    (fun dp v =>
      let w := match verts.get? u, verts.get? v with
        | some a, some b => d a b
        | _, _ => 0
      let alt := du + w
      let better := match dp.1.getD v none with
        | none => true
        | some dv => decide (alt < dv)
      if better then (dp.1.set v (some alt), dp.2.set v (some u)) else dp)
    dp

/-- Fuelled main loop of Dijkstra: repeatedly settle the unvisited vertex of
minimum tentative distance and relax its neighbors. -/
def dijkstraLoop (d : Point → Point → K) (verts : List Point) (edges : List (Nat × Nat)) :
    Nat → List (Option K) → List (Option Nat) → List Bool →
    List (Option K) × List (Option Nat)
  | 0, dist, prev, _ => (dist, prev)
  | fuel + 1, dist, prev, visited =>
    match pickMin dist visited with
    | none => (dist, prev)
    | some u =>
      match dist.getD u none with
      | none => (dist, prev)
      | some du =>
        let dp := relaxNeighbors d verts edges u du (dist, prev)
        dijkstraLoop d verts edges fuel dp.1 dp.2 (visited.set u true)

/-- Fuelled predecessor-chain walk from the end vertex back to the start. -/
def walkBack (prev : List (Option Nat)) (s : Nat) : Nat → Nat → List Nat → Option (List Nat)
  | 0, _, _ => none
  | fuel + 1, cur, acc =>
    if cur = s then some (s :: acc)
    else
      match prev.getD cur none with
      | none => none
      | some p => walkBack prev s fuel p (cur :: acc)

/-- Modelled from the spec: the Shortest Path Solver of spec section 4.6.  The
code under src/ delegates this component to the external topologicpy library
(Graph.ShortestPath with edgeKey Length), whose implementation is not part of
this repository, so the solver is modelled from the spec's words: a standard
non-negative-weight Dijkstra over the edge list with weights d, and "if start
and destination are the same vertex, returns a trivial single-vertex path of
length 0".  Returns the path's vertex coordinates in order, or none when no
path exists. -/
def specShortestPath (d : Point → Point → K) : Solver := fun verts edges s e =>
  if s = e then
    match verts.get? s with
    | some v => some [v]
    | none => none
  else
    let n := verts.length
    let dist0 := (List.replicate n (none : Option K)).set s (some 0)
    let prev0 := List.replicate n (none : Option Nat)
    let vis0 := List.replicate n false
    let dp := dijkstraLoop d verts edges n dist0 prev0 vis0
    match dp.1.getD e none with
    | none => none
    | some _ =>
      match walkBack dp.2 s (n + 1) e [] with
      | none => none
      | some idxs => some (idxs.filterMap (fun i => verts.get? i))

end SpecSolver

/-! Embedding of the geometric network construction of script.py (the
run-based cable length calculation pyRevit script): nearest-segment
projection, L-shaped jumper synthesis, and the tolerance-merging graph
build that produces the vertices/edges document consumed by
calc_shortest.py. -/

/-- Embedding of closest_point_on_line(pt, seg) from script.py: clamped
projection of pt onto the segment, with a degenerate zero-length segment
returning its first endpoint.  Only the projected point is modelled; the
returned distance is used by the caller solely to compare candidates, which
the caller does via squared distances. -/
def closest_point_on_line (pt : Point) (seg : Point × Point) : Point :=
  let a := seg.1
  let b := seg.2
  let abx := b.x - a.x
  let aby := b.y - a.y
  let abz := b.z - a.z
  let ab2 := abx ^ 2 + aby ^ 2 + abz ^ 2
  if ab2 = 0 then a
  else
    let t0 := ((pt.x - a.x) * abx + (pt.y - a.y) * aby + (pt.z - a.z) * abz) / ab2
    let t := max 0 (min 1 t0)
    ⟨a.x + abx * t, a.y + aby * t, a.z + abz * t⟩

/-- Scan helper for the nearest-segment search of the device connection loop
of script.py: running best (projection point, squared distance), replaced only
on strictly smaller distance ("if best is None or d < best[1]"; comparing
squared distances orders exactly as the source's Euclidean distances). -/
def bestProjAux (pt : Point) : List (Point × Point) → Option (Point × ℚ) → Option (Point × ℚ)
  | [], best => best
  | seg :: rest, best =>
    let cpt := closest_point_on_line pt seg
    let dsq := distSq pt cpt
    match best with
    | none => bestProjAux pt rest (some (cpt, dsq))
    | some (bc, bd) =>
      if dsq < bd then bestProjAux pt rest (some (cpt, dsq))
      else bestProjAux pt rest (some (bc, bd))

/-- Nearest-segment projection of a device point over all segments (script.py
lines 523-527). -/
def bestProjection (pt : Point) (segs : List (Point × Point)) : Option (Point × ℚ) :=
  bestProjAux pt segs none

/-- The intermediate point "drop" of the device connection loop of script.py:
the device's x,y at the attachment point's elevation. -/
def dropPoint (xyz nearest : Point) : Point :=
  ⟨xyz.x, xyz.y, nearest.z⟩

/-- Embedding of the L-shaped jumper synthesis of script.py (lines 534-543):
a vertical drop from the device point to the intermediate point sharing the
device's x,y and the attachment point's z, added unless the z offset is
isclose-zero, followed by a horizontal jumper from the intermediate point to
the attachment point, added unless all three axis offsets are isclose-zero. -/
def jumperEdges (xyz nearest : Point) : List (Point × Point) :=
  let drop := dropPoint xyz nearest
  (if isclose xyz.z drop.z then [] else [(xyz, drop)]) ++
    (if !isclose drop.x nearest.x || !isclose drop.y nearest.y || !isclose drop.z nearest.z
      then [(drop, nearest)] else [])

/-- Connection edges contributed by one device in non-direct mode (script.py
lines 521-543): jumper edges to the nearest-segment projection, with the
source's fallback to a direct device-to-end edge when no best segment exists
(only reachable with an empty segment list). -/
def connectionEdgesFor (segs : List (Point × Point)) (endXYZ : Point) (xyz : Point) :
    List (Point × Point) :=
  match bestProjection xyz segs with
  | none => if xyz ≠ endXYZ then [(xyz, endXYZ)] else []
  | some (nearest, _) => jumperEdges xyz nearest

/-- Connection edges of the whole device loop of script.py (lines 515-548):
star connections straight to the end point when there is no infrastructure
(direct mode), nearest-segment jumpers otherwise. -/
def scriptConnectionEdges (segs : List (Point × Point)) (endXYZ : Point)
    (devices : List Point) : List (Point × Point) :=
  if segs.isEmpty then
    devices.foldl
      (fun acc xyz => acc ++ if xyz ≠ endXYZ then [(xyz, endXYZ)] else []) []
  else
    devices.foldl (fun acc xyz => acc ++ connectionEdgesFor segs endXYZ xyz) []

/-- Scan helper for add_vertex of script.py: first existing vertex index
(counting from i) whose coordinates differ from pt by strictly less than
MERGE_TOL on every axis. -/
def mergeIndexAux (pt : Point) : List Point → Nat → Option Nat
  | [], _ => none
  | v :: rest, i =>
    if |v.x - pt.x| < MERGE_TOL ∧ |v.y - pt.y| < MERGE_TOL ∧ |v.z - pt.z| < MERGE_TOL then
      some i
    else mergeIndexAux pt rest (i + 1)

/-- Embedding of add_vertex(pt) from script.py (lines 573-582): return the
index of the first tolerance-merged existing vertex, or append pt and return
its fresh index.  The vertex list is threaded explicitly in place of the
script's mutable global. -/
def add_vertex (vs : List Point) (pt : Point) : List Point × Nat :=
  match mergeIndexAux pt vs 0 with
  | some i => (vs, i)
  | none => (vs ++ [pt], vs.length)

/-- One iteration of the graph build loop of script.py (lines 584-588):
resolve both segment endpoints through add_vertex and append the index pair
when the resolved indices differ. -/
def graphBuildStep (acc : List Point × List (Nat × Nat)) (seg : Point × Point) :
    List Point × List (Nat × Nat) :=
  let r1 := add_vertex acc.1 seg.1
  let r2 := add_vertex r1.1 seg.2
  (r2.1, if r1.2 ≠ r2.2 then acc.2 ++ [(r1.2, r2.2)] else acc.2)

/-- Embedding of the graph build of script.py: fold the merge-and-append step
over all edges (infrastructure followed by connection edges). -/
def buildGraph (allEdges : List (Point × Point)) : List Point × List (Nat × Nat) :=
  allEdges.foldl graphBuildStep ([], [])

/-- The network-construction pipeline of script.py for one run: infrastructure
segments, per-device connection edges, then the tolerance-merging graph
build. -/
def scriptPipeline (infra : List (Point × Point)) (devices : List Point) (endXYZ : Point) :
    List Point × List (Nat × Nat) :=
  buildGraph (infra ++ scriptConnectionEdges infra endXYZ devices)

/-! Predicates and concrete instances used by the verification. -/

/-- Strict per-axis merge proximity used by add_vertex. -/
def MergeClose (v pt : Point) : Prop :=
  |v.x - pt.x| < MERGE_TOL ∧ |v.y - pt.y| < MERGE_TOL ∧ |v.z - pt.z| < MERGE_TOL


/-- The graph script.py builds for the minimal mid-segment scenario: one
infrastructure segment from A=(0,0,0) to B=(10,0,0), one device at (5,0,1)
whose nearest-segment projection is the interior point P=(5,0,0), end point
at B. -/
def c1Graph : List Point × List (Nat × Nat) :=
  scriptPipeline [(⟨0, 0, 0⟩, ⟨10, 0, 0⟩)] [⟨5, 0, 1⟩] ⟨10, 0, 0⟩


/-- No two edges share an unordered vertex pair. -/
def NoDupEdges (l : List (Nat × Nat)) : Prop :=
  l.Pairwise (fun a b => edgeKeyUnord a.1 a.2 ≠ edgeKeyUnord b.1 b.2)

/-- Well-formed edge list over n vertices: pairwise-distinct unordered pairs,
no self edges, endpoints in range. -/
def GraphOk (n : Nat) (l : List (Nat × Nat)) : Prop :=
  NoDupEdges l ∧ ∀ e ∈ l, e.1 ≠ e.2 ∧ e.1 < n ∧ e.2 < n


/-- Invariant of the edge-construction loop of calc_shortest.py: the accepted
edges form a well-formed edge list and every accepted edge key is recorded in
seen. -/
def EdgeInv (n : Nat) (st : EdgeBuild) : Prop :=
  GraphOk n st.used ∧ ∀ e ∈ st.used, edgeKeyUnord e.1 e.2 ∈ st.seen


section LenOkDef

variable {K : Type} [LinearOrderedField K]

/-- Invariant of the result records: every result with status ok or
bridged_start reports exactly the d-sum of consecutive distances over its own
reported path coordinates. -/
def LenOk (d : Point → Point → K) (results : List (DeviceResult K)) : Prop :=
  ∀ r ∈ results, (r.status = Status.ok ∨ r.status = Status.bridgedStart) →
    r.length = some (pathLen d r.vertex_path_xyz)

end LenOkDef


/-- The source configuration: bridging enabled for starts and end, maximum
bridging distance 5 (BRIDGING_MAX_DIST in calc_shortest.py; the witness runs
measure distances with distSq, under which any positive threshold exercises
the same branches). -/
def cfgQ : Config ℚ := ⟨true, true, 5⟩

/-- Two-vertex, one-edge document whose single device sits exactly on the end
point. -/
def doc1 : InputDoc :=
  ⟨[⟨0, 0, 0⟩, ⟨1, 0, 0⟩], [(0, 1)], [⟨7, some ⟨1, 0, 0⟩⟩], some ⟨1, 0, 0⟩⟩

/-- The output of running the model on doc1. -/
def out1 : Output ℚ :=
  ⟨[⟨0, 7, some 0, [1], [⟨1, 0, 0⟩], Status.ok⟩], 1, 0, 0, 0, 1, EndStatus.exact,
    [⟨0, 0, 0⟩, ⟨1, 0, 0⟩], [(0, 1)]⟩


/-- Like doc1 but with an extra edge (0,5) whose second vertex index is out of
range for the two-element vertex list. -/
def doc4 : InputDoc :=
  ⟨[⟨0, 0, 0⟩, ⟨1, 0, 0⟩], [(0, 1), (0, 5)], [⟨7, some ⟨1, 0, 0⟩⟩], some ⟨1, 0, 0⟩⟩

/-- The output of running the model on doc4: identical to out1 — the
out-of-range edge is skipped, not fatal. -/
def out4 : Output ℚ :=
  ⟨[⟨0, 7, some 0, [1], [⟨1, 0, 0⟩], Status.ok⟩], 1, 0, 0, 0, 1, EndStatus.exact,
    [⟨0, 0, 0⟩, ⟨1, 0, 0⟩], [(0, 1)]⟩


/-! Helper lemmas. -/

lemma mergeIndexAux_some (pt : Point) :
    ∀ (vs : List Point) (k : Nat), (∃ v ∈ vs, MergeClose v pt) →
      ∃ i, mergeIndexAux pt vs k = some i ∧ k ≤ i ∧
        ∃ w, vs.get? (i - k) = some w ∧ MergeClose w pt := by
  intro vs
  induction vs with
  | nil => intro k h; rcases h with ⟨v, hv, _⟩; cases hv
  | cons v rest ih =>
    intro k h
    by_cases hc : MergeClose v pt
    · refine ⟨k, ?_, le_refl k, v, ?_, hc⟩
      · simp [mergeIndexAux, MergeClose] at hc ⊢
        simp [hc.1, hc.2.1, hc.2.2]
      · simp
    · have hrest : ∃ w ∈ rest, MergeClose w pt := by
        rcases h with ⟨w, hw, hwP⟩
        rcases List.mem_cons.mp hw with h1 | h2
        · exact absurd (h1 ▸ hwP) hc
        · exact ⟨w, h2, hwP⟩
      rcases ih (k + 1) hrest with ⟨i, hi, hki, w, hw, hwP⟩
      refine ⟨i, ?_, by omega, w, ?_, hwP⟩
      · have hc' : ¬ (|v.x - pt.x| < MERGE_TOL ∧ |v.y - pt.y| < MERGE_TOL ∧
            |v.z - pt.z| < MERGE_TOL) := hc
        simp [mergeIndexAux, hc']
        exact hi
      · have : i - k = (i - (k + 1)) + 1 := by omega
        rw [this]
        simpa using hw

lemma ISCLOSE_TOL_pos : 0 < ISCLOSE_TOL := by norm_num [ISCLOSE_TOL]

/-! Claims about the vertex merge of script.py (merge idempotence). -/

/-- C7, counterexample to the claim as stated: the claim asserts that a
coordinate all three of whose axis differences from an already-inserted
coordinate are less than or equal to the merge tolerance is merged and the
vertex count never increases; but add_vertex compares with strict less-than,
so a coordinate at exactly MERGE_TOL offset on the x axis from the sole
existing vertex is NOT merged and the vertex count grows from 1 to 2. -/
theorem claim7_boundary_increases_count :
    (|(⟨1/100000, 0, 0⟩ : Point).x - (⟨0, 0, 0⟩ : Point).x| ≤ MERGE_TOL ∧
      |(⟨1/100000, 0, 0⟩ : Point).y - (⟨0, 0, 0⟩ : Point).y| ≤ MERGE_TOL ∧
      |(⟨1/100000, 0, 0⟩ : Point).z - (⟨0, 0, 0⟩ : Point).z| ≤ MERGE_TOL) ∧
    (add_vertex [⟨0, 0, 0⟩] ⟨1/100000, 0, 0⟩).1.length = 2 := by
  norm_num [add_vertex, mergeIndexAux, MERGE_TOL, abs_le, abs_lt]

/-- C7 as amended: inserting via add_vertex a coordinate all three of whose
axis differences from some already-inserted coordinate are STRICTLY LESS THAN
the merge tolerance returns the index of an existing (tolerance-close) vertex
and leaves the vertex list, hence the vertex count, unchanged. -/
theorem claim7_amended_merge_idempotence (vs : List Point) (pt : Point)
    (h : ∃ v ∈ vs, MergeClose v pt) :
    (add_vertex vs pt).1 = vs ∧
      ∃ w, vs.get? (add_vertex vs pt).2 = some w ∧ MergeClose w pt := by
  rcases mergeIndexAux_some pt vs 0 h with ⟨i, hi, _, w, hw, hwP⟩
  have h1 : add_vertex vs pt = (vs, i) := by simp [add_vertex, hi]
  rw [h1]
  exact ⟨rfl, w, by simpa using hw, hwP⟩

/-- Concrete witness for the amended C7: a second insertion half a tolerance
away from the first coordinate is merged and the vertex list stays [origin]. -/
theorem claim7_amended_merge_idempotence_witness :
    (add_vertex [⟨0, 0, 0⟩] ⟨1/200000, 0, 0⟩).1 = [⟨0, 0, 0⟩] :=
  (claim7_amended_merge_idempotence [⟨0, 0, 0⟩] ⟨1/200000, 0, 0⟩
    ⟨⟨0, 0, 0⟩, by simp, by norm_num [MergeClose, MERGE_TOL, abs_lt]⟩).1

/-! Claim about the jumper synthesis of script.py. -/

lemma isclose_iff (a b : ℚ) : isclose a b = true ↔ |a - b| ≤ ISCLOSE_TOL := by
  simp [isclose]

lemma isclose_self (a : ℚ) : isclose a a = true := by
  simp [isclose]
  norm_num [ISCLOSE_TOL]

/-- C8: the synthesized jumper for device point p attached at point a is a
sublist of [vertical edge (p, drop), horizontal edge (drop, a)] in that order,
where drop = (p.x, p.y, a.z); the vertical edge is present whenever the
vertical offset exceeds the near-zero threshold and omitted (the jumper
collapsing to at most the horizontal edge) when the offset is below it; every
edge actually added has squared length strictly above the squared threshold,
i.e. no near-zero-length edge is ever added; and the horizontal edge from the
intermediate point to a is present whenever either horizontal axis offset
exceeds the threshold (the drop point shares a's elevation, so its z offset
from a is always zero). -/
theorem claim8_jumper_decomposition (p a : Point) :
    List.Sublist (jumperEdges p a) [(p, dropPoint p a), (dropPoint p a, a)] ∧
    (ISCLOSE_TOL < |p.z - a.z| → (p, dropPoint p a) ∈ jumperEdges p a) ∧
    (|p.z - a.z| < ISCLOSE_TOL → ∀ e ∈ jumperEdges p a, e = (dropPoint p a, a)) ∧
    (∀ e ∈ jumperEdges p a, ISCLOSE_TOL ^ 2 < distSq e.1 e.2) ∧
    (ISCLOSE_TOL < |p.x - a.x| ∨ ISCLOSE_TOL < |p.y - a.y| →
      (dropPoint p a, a) ∈ jumperEdges p a) := by
  have hje : jumperEdges p a =
      (if isclose p.z a.z then [] else [(p, dropPoint p a)]) ++
        (if !isclose p.x a.x || !isclose p.y a.y || !isclose a.z a.z
          then [(dropPoint p a, a)] else []) := rfl
  have hvert : ISCLOSE_TOL < |p.z - a.z| → ISCLOSE_TOL ^ 2 < distSq p (dropPoint p a) := by
    intro h
    have h2 : ISCLOSE_TOL ^ 2 < |p.z - a.z| ^ 2 :=
      pow_lt_pow_left₀ h (le_of_lt ISCLOSE_TOL_pos) (by norm_num)
    rw [sq_abs] at h2
    simp [distSq, dropPoint]
    nlinarith [h2]
  have hhor : ISCLOSE_TOL < |p.x - a.x| ∨ ISCLOSE_TOL < |p.y - a.y| →
      ISCLOSE_TOL ^ 2 < distSq (dropPoint p a) a := by
    intro h
    have hx := sq_nonneg (p.x - a.x)
    have hy := sq_nonneg (p.y - a.y)
    rcases h with h | h
    · have h2 : ISCLOSE_TOL ^ 2 < |p.x - a.x| ^ 2 :=
        pow_lt_pow_left₀ h (le_of_lt ISCLOSE_TOL_pos) (by norm_num)
      rw [sq_abs] at h2
      simp [distSq, dropPoint]
      nlinarith [h2]
    · have h2 : ISCLOSE_TOL ^ 2 < |p.y - a.y| ^ 2 :=
        pow_lt_pow_left₀ h (le_of_lt ISCLOSE_TOL_pos) (by norm_num)
      rw [sq_abs] at h2
      simp [distSq, dropPoint]
      nlinarith [h2]
  rw [hje]
  by_cases h1 : isclose p.z a.z
  · -- vertical omitted
    have h1' : |p.z - a.z| ≤ ISCLOSE_TOL := (isclose_iff _ _).mp h1
    by_cases h2 : (!isclose p.x a.x || !isclose p.y a.y || !isclose a.z a.z) = true
    · simp only [h1, if_true, h2, List.nil_append]
      refine ⟨(List.Sublist.refl _).cons _, ?_, ?_, ?_, ?_⟩
      · intro hlt; exact absurd h1' (not_le.mpr hlt)
      · intro _ e he; simpa using he
      · intro e he
        have he' : e = (dropPoint p a, a) := by simpa using he
        subst he'
        rcases (by simpa [isclose_self] using h2 :
            ¬ isclose p.x a.x = true ∨ ¬ isclose p.y a.y = true) with h | h
        · exact hhor (Or.inl (not_le.mp (fun hh => h ((isclose_iff _ _).mpr hh))))
        · exact hhor (Or.inr (not_le.mp (fun hh => h ((isclose_iff _ _).mpr hh))))
      · intro _; simp
    · simp only [h1, if_true, h2, if_false, List.nil_append]
      refine ⟨List.nil_sublist _, ?_, ?_, ?_, ?_⟩
      · intro hlt; exact absurd h1' (not_le.mpr hlt)
      · intro _ e he; simp at he
      · intro e he; simp at he
      · intro hh
        have hall : isclose p.x a.x = true ∧ isclose p.y a.y = true := by
          rcases (by simpa using h2 :
              (isclose p.x a.x = true ∧ isclose p.y a.y = true) ∧ isclose a.z a.z = true)
            with ⟨⟨hx, hy⟩, -⟩
          exact ⟨hx, hy⟩
        rcases hh with hh | hh
        · exact absurd ((isclose_iff _ _).mp hall.1) (not_le.mpr hh)
        · exact absurd ((isclose_iff _ _).mp hall.2) (not_le.mpr hh)
  · -- vertical present
    have h1' : ISCLOSE_TOL < |p.z - a.z| :=
      not_le.mp (fun hh => h1 ((isclose_iff _ _).mpr hh))
    by_cases h2 : (!isclose p.x a.x || !isclose p.y a.y || !isclose a.z a.z) = true
    · simp only [h1, if_false, h2, if_true]
      refine ⟨List.Sublist.refl _, by simp, ?_, ?_, ?_⟩
      · intro hlt; exact absurd hlt (not_lt.mpr (le_of_lt h1'))
      · intro e he
        rcases (by simpa using he :
            e = (p, dropPoint p a) ∨ e = (dropPoint p a, a)) with he' | he'
        · subst he'; exact hvert h1'
        · subst he'
          rcases (by simpa [isclose_self] using h2 :
              ¬ isclose p.x a.x = true ∨ ¬ isclose p.y a.y = true) with h | h
          · exact hhor (Or.inl (not_le.mp (fun hh => h ((isclose_iff _ _).mpr hh))))
          · exact hhor (Or.inr (not_le.mp (fun hh => h ((isclose_iff _ _).mpr hh))))
      · intro _; simp
    · have hl : (if isclose p.z a.z then ([] : List (Point × Point))
          else [(p, dropPoint p a)]) ++
          (if !isclose p.x a.x || !isclose p.y a.y || !isclose a.z a.z
            then [(dropPoint p a, a)] else []) = [(p, dropPoint p a)] := by
        simp [h1, h2]
      rw [hl]
      refine ⟨List.Sublist.cons₂ _ (List.nil_sublist _), by simp, ?_, ?_, ?_⟩
      · intro hlt; exact absurd hlt (not_lt.mpr (le_of_lt h1'))
      · intro e he
        have he' : e = (p, dropPoint p a) := by simpa using he
        subst he'; exact hvert h1'
      · intro hh
        have hall : isclose p.x a.x = true ∧ isclose p.y a.y = true := by
          rcases (by simpa using h2 :
              (isclose p.x a.x = true ∧ isclose p.y a.y = true) ∧ isclose a.z a.z = true)
            with ⟨⟨hx, hy⟩, -⟩
          exact ⟨hx, hy⟩
        rcases hh with hh | hh
        · exact absurd ((isclose_iff _ _).mp hall.1) (not_le.mpr hh)
        · exact absurd ((isclose_iff _ _).mp hall.2) (not_le.mpr hh)

/-- Concrete witness for C8: device at (0,0,5) attached at (3,4,0): both the
vertical and the horizontal jumper edge are synthesized. -/
theorem claim8_jumper_decomposition_witness :
    ((⟨0, 0, 5⟩ : Point), dropPoint ⟨0, 0, 5⟩ ⟨3, 4, 0⟩) ∈
      jumperEdges ⟨0, 0, 5⟩ ⟨3, 4, 0⟩ ∧
    (dropPoint ⟨0, 0, 5⟩ ⟨3, 4, 0⟩, (⟨3, 4, 0⟩ : Point)) ∈
      jumperEdges ⟨0, 0, 5⟩ ⟨3, 4, 0⟩ :=
  ⟨(claim8_jumper_decomposition ⟨0, 0, 5⟩ ⟨3, 4, 0⟩).2.1
      (by norm_num [ISCLOSE_TOL]),
    (claim8_jumper_decomposition ⟨0, 0, 5⟩ ⟨3, 4, 0⟩).2.2.2.2
      (Or.inl (by norm_num [ISCLOSE_TOL]))⟩

/-! Claim about mid-segment attachment (segment splitting). -/

/-- C1 fails on the code: processing a device whose projection lands at the
interior point P of the winning edge (A,B) leaves the graph with the original
edge (A,B) = indices (0,1) intact and with NO replacement edges (A,P) or
(P,B); the only new edge is the jumper from the device down to P, which is a
fresh vertex (index 3) connected to nothing else, so the device dead-ends at
P instead of joining the carrier network.  Vertices: A, B, device, P; P is
5 units from either endpoint, far beyond every tolerance in the source. -/
theorem claim1_no_split_at_projection :
    c1Graph.1 = [⟨0, 0, 0⟩, ⟨10, 0, 0⟩, ⟨5, 0, 1⟩, ⟨5, 0, 0⟩] ∧
    (0, 1) ∈ c1Graph.2 ∧
    (∀ e ∈ c1Graph.2, edgeKeyUnord e.1 e.2 ≠ (0, 3) ∧ edgeKeyUnord e.1 e.2 ≠ (1, 3)) ∧
    c1Graph.2 = [(0, 1), (2, 3)] := by
  have h : c1Graph = ([⟨0, 0, 0⟩, ⟨10, 0, 0⟩, ⟨5, 0, 1⟩, ⟨5, 0, 0⟩], [(0, 1), (2, 3)]) := by
    norm_num [c1Graph, scriptPipeline, scriptConnectionEdges, connectionEdgesFor,
      bestProjection, bestProjAux, closest_point_on_line, distSq, jumperEdges, dropPoint,
      isclose, ISCLOSE_TOL, buildGraph, graphBuildStep, add_vertex, mergeIndexAux,
      MERGE_TOL, abs_le, abs_lt]
  rw [h]
  refine ⟨rfl, by simp, ?_, rfl⟩
  intro e he
  rcases (by simpa using he : e = (0, 1) ∨ e = (2, 3)) with he' | he' <;>
    subst he' <;> simp [edgeKeyUnord]


/-! Index-bound lemmas for the scan helpers. -/

lemma coordMatchAux_some_bound (c : Point) (tol : ℚ) :
    ∀ (l : List Point) (k i : Nat), coordMatchAux c tol l k = some i →
      k ≤ i ∧ ∃ w, l.get? (i - k) = some w ∧ coordWithin c w tol = true := by
  intro l
  induction l with
  | nil => intro k i h; simp [coordMatchAux] at h
  | cons v rest ih =>
    intro k i h
    by_cases hc : coordWithin c v tol
    · have : i = k := by simpa [coordMatchAux, hc] using h.symm
      subst this
      exact ⟨le_refl _, v, by simp, hc⟩
    · have h' : coordMatchAux c tol rest (k + 1) = some i := by
        simpa [coordMatchAux, hc] using h
      rcases ih (k + 1) i h' with ⟨hk, w, hw, hwc⟩
      refine ⟨by omega, w, ?_, hwc⟩
      have : i - k = (i - (k + 1)) + 1 := by omega
      rw [this]
      simpa using hw

lemma coord_match_index_some_lt {c : Point} {verts : List Point} {tol : ℚ} {i : Nat}
    (h : coord_match_index c verts tol = some i) : i < verts.length := by
  rcases coordMatchAux_some_bound c tol verts 0 i h with ⟨_, w, hw, _⟩
  obtain ⟨hlt, -⟩ := List.get?_eq_some.mp (show verts.get? i = some w by simpa using hw)
  exact hlt

lemma coord_match_index_some_get {c : Point} {verts : List Point} {tol : ℚ} {i : Nat}
    (h : coord_match_index c verts tol = some i) :
    ∃ w, verts.get? i = some w ∧ coordWithin c w tol = true := by
  rcases coordMatchAux_some_bound c tol verts 0 i h with ⟨_, w, hw, hwc⟩
  exact ⟨w, by simpa using hw, hwc⟩

section NearestLemmas

variable {K : Type} [LinearOrderedField K]

lemma nearestAux_ne_none (d : Point → Point → K) (c : Point) :
    ∀ (l : List Point) (i : Nat) (best : Option (Nat × K)),
      nearestAux d c l i best = none → l = [] ∧ best = none := by
  intro l
  induction l with
  | nil => intro i best h; exact ⟨rfl, by simpa [nearestAux] using h⟩
  | cons v rest ih =>
    intro i best h
    cases best with
    | none =>
      have := (ih (i + 1) (some (i, d c v)) (by simpa [nearestAux] using h)).2
      cases this
    | some p =>
      obtain ⟨bi, bd⟩ := p
      by_cases hlt : d c v < bd
      · have := (ih (i + 1) (some (i, d c v)) (by simpa [nearestAux, hlt] using h)).2
        cases this
      · have := (ih (i + 1) (some (bi, bd)) (by simpa [nearestAux, hlt] using h)).2
        cases this

lemma nearestAux_fst_lt (d : Point → Point → K) (c : Point) :
    ∀ (l : List Point) (i : Nat) (best : Option (Nat × K)),
      (∀ bi bd, best = some (bi, bd) → bi < i) →
      ∀ ri rd, nearestAux d c l i best = some (ri, rd) → ri < i + l.length := by
  intro l
  induction l with
  | nil =>
    intro i best hb ri rd h
    have := hb ri rd (by simpa [nearestAux] using h)
    omega
  | cons v rest ih =>
    intro i best hb ri rd h
    have hstep : ∀ (b2 : Option (Nat × K)), (∀ bi bd, b2 = some (bi, bd) → bi < i + 1) →
        nearestAux d c rest (i + 1) b2 = some (ri, rd) → ri < i + (v :: rest).length := by
      intro b2 hb2 h2
      have := ih (i + 1) b2 hb2 ri rd h2
      simp only [List.length_cons]
      omega
    cases best with
    | none =>
      refine hstep (some (i, d c v)) ?_ (by simpa [nearestAux] using h)
      intro bi bd hbd
      have : bi = i := by simpa using (congrArg (fun o => (o.getD (0, d c v)).1) hbd).symm
      omega
    | some p =>
      obtain ⟨bi0, bd0⟩ := p
      have hbi0 : bi0 < i := hb bi0 bd0 rfl
      by_cases hlt : d c v < bd0
      · refine hstep (some (i, d c v)) ?_ (by simpa [nearestAux, hlt] using h)
        intro bi bd hbd
        have : bi = i := by simpa using (congrArg (fun o => (o.getD (0, d c v)).1) hbd).symm
        omega
      · refine hstep (some (bi0, bd0)) ?_ (by simpa [nearestAux, hlt] using h)
        intro bi bd hbd
        have : bi = bi0 := by simpa using (congrArg (fun o => (o.getD (0, bd0)).1) hbd).symm
        omega

lemma nearest_vertex_index_some (d : Point → Point → K) (c : Point) (verts : List Point)
    (h : verts ≠ []) :
    ∃ ni nd, nearest_vertex_index d c verts = some (ni, nd) ∧ ni < verts.length := by
  cases hn : nearest_vertex_index d c verts with
  | none => exact absurd (nearestAux_ne_none d c verts 0 none hn).1 h
  | some p =>
    obtain ⟨ni, nd⟩ := p
    refine ⟨ni, nd, rfl, ?_⟩
    have := nearestAux_fst_lt d c verts 0 none (by simp) ni nd hn
    omega

end NearestLemmas

/-! Graph invariant: pairwise-distinct unordered edge keys, no self edges,
all endpoint indices in range. -/

lemma edgeKeyUnord_fst_lt {i j n : Nat} (hi : i < n) (hj : j < n) :
    (edgeKeyUnord i j).1 < n := by
  unfold edgeKeyUnord
  split <;> simp [hi, hj]

lemma edgeKeyUnord_snd_lt {i j n : Nat} (hi : i < n) (hj : j < n) :
    (edgeKeyUnord i j).2 < n := by
  unfold edgeKeyUnord
  split <;> simp [hi, hj]

lemma GraphOk.nil (n : Nat) : GraphOk n [] :=
  ⟨List.Pairwise.nil, by simp⟩

lemma GraphOk.mono {n m : Nat} {l : List (Nat × Nat)} (h : GraphOk n l) (hnm : n ≤ m) :
    GraphOk m l := by
  refine ⟨h.1, fun e he => ?_⟩
  rcases h.2 e he with ⟨h1, h2, h3⟩
  exact ⟨h1, by omega, by omega⟩

/-- Appending a bridge edge from an existing vertex ni to the freshly appended
vertex (index n) preserves the graph invariant: the new unordered key contains
n, which no previous key can. -/
lemma GraphOk.bridge {n : Nat} {l : List (Nat × Nat)} (h : GraphOk n l) {ni : Nat}
    (hni : ni < n) : GraphOk (n + 1) (l ++ [(ni, n)]) := by
  refine ⟨?_, ?_⟩
  · rw [NoDupEdges, List.pairwise_append]
    refine ⟨h.1, List.pairwise_singleton _ _, ?_⟩
    intro a ha b hb
    have hb' : b = (ni, n) := by simpa using hb
    subst hb'
    rcases h.2 a ha with ⟨_, ha1, ha2⟩
    intro hkey
    have hsnd : (edgeKeyUnord a.1 a.2).2 < n := edgeKeyUnord_snd_lt ha1 ha2
    have : (edgeKeyUnord ni n).2 = n := by
      unfold edgeKeyUnord
      split
      · rfl
      · omega
    rw [hkey, this] at hsnd
    omega
  · intro e he
    rcases List.mem_append.mp he with he | he
    · rcases h.2 e he with ⟨h1, h2, h3⟩
      exact ⟨h1, by omega, by omega⟩
    · have : e = (ni, n) := by simpa using he
      subst this
      exact ⟨by omega, by omega, by omega⟩

lemma edgeStep_inv {n : Nat} {st : EdgeBuild} (e : Int × Int) (h : EdgeInv n st) :
    EdgeInv n (edgeStep n st e) := by
  unfold edgeStep
  split
  · exact h
  · rename_i hrange
    split
    · exact h
    · split
      · exact h
      · rename_i hself hseen
        push_neg at hrange
        obtain ⟨h1, h2, h3, h4⟩ := hrange
        have hi : e.1.toNat < n := by omega
        have hj : e.2.toNat < n := by omega
        refine ⟨⟨?_, ?_⟩, ?_⟩
        · rw [NoDupEdges, List.pairwise_append]
          refine ⟨h.1.1, List.pairwise_singleton _ _, ?_⟩
          intro a ha b hb
          have hb' : b = (e.1.toNat, e.2.toNat) := by simpa using hb
          subst hb'
          intro hkey
          exact hseen (hkey ▸ h.2 a ha)
        · intro f hf
          rcases List.mem_append.mp hf with hf | hf
          · exact h.1.2 f hf
          · have : f = (e.1.toNat, e.2.toNat) := by simpa using hf
            subst this
            exact ⟨hself, hi, hj⟩
        · intro f hf
          rcases List.mem_append.mp hf with hf | hf
          · exact List.mem_append_left _ (h.2 f hf)
          · have : f = (e.1.toNat, e.2.toNat) := by simpa using hf
            subst this
            simp
    
lemma foldl_edgeStep_inv (n : Nat) (l : List (Int × Int)) :
    ∀ st : EdgeBuild, EdgeInv n st → EdgeInv n (l.foldl (edgeStep n) st) := by
  induction l with
  | nil => intro st h; simpa using h
  | cons e rest ih =>
    intro st h
    simpa using ih (edgeStep n st e) (edgeStep_inv e h)

/-- The edge list built by calc_shortest.py is well formed: no duplicate
unordered pairs, no self edges, all endpoints within the vertex list. -/
lemma buildEdges_graphOk (n : Nat) (l : List (Int × Int)) :
    GraphOk n (buildEdges n l).used :=
  (foldl_edgeStep_inv n l ⟨[], [], 0, 0⟩ ⟨GraphOk.nil n, by simp⟩).1

section StateInvariant

variable {K : Type} [LinearOrderedField K]

lemma bindStart_graphOk (cfg : Config K) (d : Point → Point → K) (st : LoopState K)
    (coord : Point) (h : GraphOk st.verts.length st.edges) :
    GraphOk (bindStart cfg d st coord).1.verts.length (bindStart cfg d st coord).1.edges := by
  unfold bindStart
  cases hm : coord_match_index coord st.verts MATCH_TOL with
  | some i => simpa using h
  | none =>
    by_cases hb : cfg.allow_bridging_starts
    · simp only [hb, if_true]
      cases hn : nearest_vertex_index d coord st.verts with
      | none => simpa using h
      | some p =>
        obtain ⟨ni, nd⟩ := p
        have hni : ni < st.verts.length := by
          have := nearestAux_fst_lt d coord st.verts 0 none (by simp) ni nd hn
          omega
        by_cases hd : nd ≤ cfg.bridging_max_dist
        · simp only [hd, if_true]
          simpa [List.length_append] using h.bridge hni
        · simp only [hd, if_false]
          simpa using h
    · simp only [hb, if_false]
      simpa using h

lemma solveRecord_verts {d : Point → Point → K} {solve : Solver} {endVid : Nat}
    {st : LoopState K} {si : Nat} {sp : StartPoint} {svid : Nat} {status : Status} :
    (solveRecord d solve endVid st si sp svid status).verts = st.verts := by
  cases h : solve st.verts st.edges svid endVid <;> simp [solveRecord, h]

lemma solveRecord_edges {d : Point → Point → K} {solve : Solver} {endVid : Nat}
    {st : LoopState K} {si : Nat} {sp : StartPoint} {svid : Nat} {status : Status} :
    (solveRecord d solve endVid st si sp svid status).edges = st.edges := by
  cases h : solve st.verts st.edges svid endVid <;> simp [solveRecord, h]

lemma processDevice_graphOk (cfg : Config K) (d : Point → Point → K) (solve : Solver)
    (endVid : Nat) (st : LoopState K) (si : Nat) (sp : StartPoint)
    (h : GraphOk st.verts.length st.edges) :
    GraphOk (processDevice cfg d solve endVid st si sp).verts.length
      (processDevice cfg d solve endVid st si sp).edges := by
  unfold processDevice
  cases sp.point with
  | none => simpa using h
  | some coord =>
    have hb := bindStart_graphOk cfg d st coord h
    rcases hbs : bindStart cfg d st coord with ⟨st1, svid?, status⟩
    rw [hbs] at hb
    simp only [hbs]
    cases svid? with
    | none => simpa using hb
    | some svid => simpa [solveRecord_verts, solveRecord_edges] using hb

lemma deviceFold_graphOk (cfg : Config K) (d : Point → Point → K) (solve : Solver)
    (endVid : Nat) (l : List (Nat × StartPoint)) :
    ∀ st : LoopState K, GraphOk st.verts.length st.edges →
      GraphOk (deviceFold cfg d solve endVid st l).verts.length
        (deviceFold cfg d solve endVid st l).edges := by
  induction l with
  | nil => intro st h; simpa [deviceFold] using h
  | cons p rest ih =>
    intro st h
    have h1 := processDevice_graphOk cfg d solve endVid st p.1 p.2 h
    simpa [deviceFold] using ih _ h1

lemma bindEnd_ok {cfg : Config K} {d : Point → Point → K} {doc : InputDoc}
    {verts : List Point} {edges : List (Nat × Nat)} {evid : Nat} {estat : EndStatus}
    (h : bindEnd cfg d doc = Except.ok (verts, edges, evid, estat)) :
    GraphOk verts.length edges ∧ evid < verts.length := by
  unfold bindEnd at h
  by_cases h0 : doc.vertices.isEmpty || doc.edges.isEmpty
  · simp only [h0, if_true] at h
    cases h
  · simp only [h0, Bool.false_eq_true, if_false] at h
    cases hep : doc.end_point with
    | none =>
      simp only [hep] at h
      simp at h
    | some ep =>
      simp only [hep] at h
      cases hm : coord_match_index ep doc.vertices MATCH_TOL with
      | some evid0 =>
        simp only [hm, Except.ok.injEq, Prod.mk.injEq] at h
        obtain ⟨h1, h2, h3, h4⟩ := h
        subst h1 h2 h3
        exact ⟨buildEdges_graphOk _ _, coord_match_index_some_lt hm⟩
      | none =>
        simp only [hm] at h
        by_cases hbe : cfg.allow_bridging_end
        · simp only [hbe, if_true] at h
          cases hn : nearest_vertex_index d ep doc.vertices with
          | none =>
            simp only [hn] at h
            simp at h
          | some p =>
            obtain ⟨ni, nd⟩ := p
            simp only [hn] at h
            by_cases hd : nd ≤ cfg.bridging_max_dist
            · simp only [hd, if_true, Except.ok.injEq, Prod.mk.injEq] at h
              have hni : ni < doc.vertices.length := by
                have := nearestAux_fst_lt d ep doc.vertices 0 none (by simp) ni nd hn
                omega
              obtain ⟨h1, h2, h3, h4⟩ := h
              subst h1 h2 h3
              constructor
              · simpa [List.length_append] using
                  (buildEdges_graphOk doc.vertices.length doc.edges).bridge hni
              · simp
            · simp only [hd, if_false] at h
              simp at h
        · simp only [hbe, Bool.false_eq_true, if_false] at h
          simp at h

lemma mainModel_ok_elim {cfg : Config K} {d : Point → Point → K} {solve : Solver}
    {doc : InputDoc} {out : Output K} (h : mainModel cfg d solve doc = Except.ok out) :
    ∃ verts edges evid estat, bindEnd cfg d doc = Except.ok (verts, edges, evid, estat) ∧
      out = mkOutput (deviceFold cfg d solve evid (initState verts edges)
        doc.start_points.enum) estat := by
  unfold mainModel at h
  cases hbe : bindEnd cfg d doc with
  | error e => rw [hbe] at h; cases h
  | ok g =>
    obtain ⟨verts, edges, evid, estat⟩ := g
    rw [hbe] at h
    exact ⟨verts, edges, evid, estat, rfl, ((Except.ok.injEq _ _).mp h).symm⟩

end StateInvariant

section ResultLemmas

variable {K : Type} [LinearOrderedField K]

lemma bindStart_preserved (cfg : Config K) (d : Point → Point → K) (st : LoopState K)
    (coord : Point) :
    (bindStart cfg d st coord).1.results = st.results ∧
      (bindStart cfg d st coord).1.fail = st.fail ∧
      (bindStart cfg d st coord).1.solveCalls = st.solveCalls ∧
      (bindStart cfg d st coord).1.success = st.success := by
  unfold bindStart
  cases hm : coord_match_index coord st.verts MATCH_TOL with
  | some i => simp
  | none =>
    by_cases hb : cfg.allow_bridging_starts
    · simp only [hb, if_true]
      cases hn : nearest_vertex_index d coord st.verts with
      | none => simp
      | some p =>
        obtain ⟨ni, nd⟩ := p
        by_cases hd : nd ≤ cfg.bridging_max_dist
        · simp [hd]
        · simp [hd]
    · simp [hb]

lemma bindStart_cases (cfg : Config K) (d : Point → Point → K) (st : LoopState K)
    (coord : Point) :
    ((bindStart cfg d st coord).2.1 = none ∧
      (bindStart cfg d st coord).2.2 = Status.unmatchedStart) ∨
    (∃ i, (bindStart cfg d st coord).2.1 = some i) := by
  unfold bindStart
  cases hm : coord_match_index coord st.verts MATCH_TOL with
  | some i => right; exact ⟨i, by simp⟩
  | none =>
    by_cases hb : cfg.allow_bridging_starts
    · simp only [hb, if_true]
      cases hn : nearest_vertex_index d coord st.verts with
      | none => left; simp
      | some p =>
        obtain ⟨ni, nd⟩ := p
        by_cases hd : nd ≤ cfg.bridging_max_dist
        · right; exact ⟨st.verts.length, by simp [hd]⟩
        · left; simp [hd]
    · left; simp [hb]

lemma bindStart_none_status (cfg : Config K) (d : Point → Point → K) (st : LoopState K)
    (coord : Point) (h : (bindStart cfg d st coord).2.1 = none) :
    (bindStart cfg d st coord).2.2 = Status.unmatchedStart := by
  rcases bindStart_cases cfg d st coord with ⟨_, h2⟩ | ⟨i, hi⟩
  · exact h2
  · rw [h] at hi
    cases hi

lemma processDevice_results_length (cfg : Config K) (d : Point → Point → K) (solve : Solver)
    (endVid : Nat) (st : LoopState K) (si : Nat) (sp : StartPoint) :
    (processDevice cfg d solve endVid st si sp).results.length = st.results.length + 1 := by
  unfold processDevice
  cases sp.point with
  | none => simp
  | some coord =>
    rcases hbs : bindStart cfg d st coord with ⟨st1, svid?, status⟩
    have hres : st1.results = st.results := by
      have := (bindStart_preserved cfg d st coord).1
      rw [hbs] at this
      exact this
    simp only [hbs]
    cases svid? with
    | none => simp [hres]
    | some svid =>
      cases hsol : solve st1.verts st1.edges svid endVid <;>
        simp [solveRecord, hsol, hres]

lemma deviceFold_results_length {cfg : Config K} {d : Point → Point → K} {solve : Solver}
    {endVid : Nat} (l : List (Nat × StartPoint)) :
    ∀ st : LoopState K,
      (deviceFold cfg d solve endVid st l).results.length = st.results.length + l.length := by
  induction l with
  | nil => intro st; simp [deviceFold]
  | cons p rest ih =>
    intro st
    have h1 := processDevice_results_length cfg d solve endVid st p.1 p.2
    have h2 := ih (processDevice cfg d solve endVid st p.1 p.2)
    simp only [deviceFold, List.foldl_cons] at h2 ⊢
    rw [h2, h1]
    simp only [List.length_cons]
    omega

lemma lenOk_append_unmatched {d : Point → Point → K} {results : List (DeviceResult K)}
    (h : LenOk d results) {si : Nat} {eid : Int} {status : Status}
    (hst : status = Status.unmatchedStart ∨ status = Status.noPath) :
    LenOk d (results ++ [⟨si, eid, none, [], [], status⟩]) := by
  intro r hr hok
  rcases List.mem_append.mp hr with hr | hr
  · exact h r hr hok
  · have : r = ⟨si, eid, none, [], [], status⟩ := by simpa using hr
    subst this
    rcases hst with hst | hst <;> rw [hst] at hok <;> rcases hok with hok | hok <;> cases hok

lemma processDevice_lenOk (cfg : Config K) (d : Point → Point → K) (solve : Solver)
    (endVid : Nat) (st : LoopState K) (si : Nat) (sp : StartPoint)
    (h : LenOk d st.results) :
    LenOk d (processDevice cfg d solve endVid st si sp).results := by
  unfold processDevice
  cases sp.point with
  | none =>
    simp only []
    exact lenOk_append_unmatched h (Or.inl rfl)
  | some coord =>
    rcases hbs : bindStart cfg d st coord with ⟨st1, svid?, status⟩
    have hres : st1.results = st.results := by
      have := (bindStart_preserved cfg d st coord).1
      rw [hbs] at this
      exact this
    simp only [hbs]
    cases svid? with
    | none =>
      have hstatus : status = Status.unmatchedStart := by
        have := bindStart_none_status cfg d st coord (by rw [hbs])
        rw [hbs] at this
        exact this
      simp only []
      rw [hres, hstatus]
      exact lenOk_append_unmatched h (Or.inl rfl)
    | some svid =>
      cases hsol : solve st1.verts st1.edges svid endVid with
      | none =>
        simp only [solveRecord, hsol]
        rw [hres]
        exact lenOk_append_unmatched h (Or.inr rfl)
      | some coords =>
        simp only [solveRecord, hsol]
        intro r hr hok
        have hr' : r ∈ st1.results ∨ r = ⟨si, sp.element_id, some (pathLen d coords),
            coords.map (indexOfCoord st1.verts), coords, status⟩ := by
          simpa using hr
        rcases hr' with hr2 | hr2
        · exact h r (hres ▸ hr2) hok
        · subst hr2
          rfl

lemma deviceFold_lenOk (cfg : Config K) (d : Point → Point → K) (solve : Solver)
    (endVid : Nat) (l : List (Nat × StartPoint)) :
    ∀ st : LoopState K, LenOk d st.results →
      LenOk d (deviceFold cfg d solve endVid st l).results := by
  induction l with
  | nil => intro st h; simpa [deviceFold] using h
  | cons p rest ih =>
    intro st h
    have h1 := processDevice_lenOk cfg d solve endVid st p.1 p.2 h
    simpa [deviceFold] using ih _ h1

end ResultLemmas

section ClaimTheorems

variable {K : Type} [LinearOrderedField K]

/-- C6: for every run that completes (any configuration, distance function,
shortest-path oracle and input document), the final edge list of the graph —
after the initial duplicate-suppressing build and every bridge-edge insertion
for the end point and the devices — contains at most one edge per unordered
vertex pair and no self edges. -/
theorem claim6_no_duplicate_edges (cfg : Config K) (d : Point → Point → K) (solve : Solver)
    (doc : InputDoc) (out : Output K) (h : mainModel cfg d solve doc = Except.ok out) :
    NoDupEdges out.final_edges ∧ ∀ e ∈ out.final_edges, e.1 ≠ e.2 := by
  rcases mainModel_ok_elim h with ⟨verts, edges, evid, estat, hbe, hout⟩
  rcases bindEnd_ok hbe with ⟨hg, _⟩
  have hfold := deviceFold_graphOk cfg d solve evid
    doc.start_points.enum (initState verts edges) (by simpa [initState] using hg)
  subst hout
  exact ⟨hfold.1, fun e he => (hfold.2 e he).1⟩

/-- C3: in every completed run, every device result with status ok or
bridged_start reports exactly the sum of d-distances between consecutive
coordinates of its own reported path (vertex_path_xyz) — the geometric length
of the reported polyline, for the same distance function d used by the
engine, whatever the shortest-path oracle returned. -/
theorem claim3_path_length_consistency (cfg : Config K) (d : Point → Point → K)
    (solve : Solver) (doc : InputDoc) (out : Output K)
    (h : mainModel cfg d solve doc = Except.ok out) :
    ∀ r ∈ out.results, (r.status = Status.ok ∨ r.status = Status.bridgedStart) →
      r.length = some (pathLen d r.vertex_path_xyz) := by
  rcases mainModel_ok_elim h with ⟨verts, edges, evid, estat, hbe, hout⟩
  subst hout
  exact deviceFold_lenOk cfg d solve evid doc.start_points.enum (initState verts edges)
    (by intro r hr; simp [initState] at hr)

/-- C2: for a device whose coordinate matches no vertex within MATCH_TOL,
with bridging enabled and (ni, nd) the nearest vertex and its distance: if
nd is at most the maximum bridging distance, the binder appends a new vertex
at the query coordinate and a bridge edge to the nearest vertex and reports
status bridged_start; if nd is strictly greater, the binder reports
unmatched_start, and the device is recorded with no vertex created, no edge
added and no shortest-path call (the processed state equals the input state
except for the failure record and counters, with verts, edges and solveCalls
unchanged). -/
theorem claim2_bridging_boundary (cfg : Config K) (d : Point → Point → K) (solve : Solver)
    (endVid : Nat) (st : LoopState K) (si : Nat) (sp : StartPoint) (coord : Point)
    (ni : Nat) (nd : K)
    (hpt : sp.point = some coord)
    (hnomatch : coord_match_index coord st.verts MATCH_TOL = none)
    (hallow : cfg.allow_bridging_starts = true)
    (hnear : nearest_vertex_index d coord st.verts = some (ni, nd)) :
    (nd ≤ cfg.bridging_max_dist →
      bindStart cfg d st coord =
        ({ st with
            verts := st.verts ++ [coord]
            edges := st.edges ++ [(ni, st.verts.length)]
            bridged_starts := st.bridged_starts + 1 },
          some st.verts.length, Status.bridgedStart)) ∧
    (cfg.bridging_max_dist < nd →
      bindStart cfg d st coord =
        ({ st with unmatched_starts := st.unmatched_starts + 1 }, none,
          Status.unmatchedStart) ∧
      processDevice cfg d solve endVid st si sp =
        { st with
            unmatched_starts := st.unmatched_starts + 1
            fail := st.fail + 1
            results := st.results ++
              [⟨si, sp.element_id, none, [], [], Status.unmatchedStart⟩] }) := by
  constructor
  · intro hle
    simp [bindStart, hnomatch, hallow, hnear, hle]
  · intro hgt
    have hle : ¬ nd ≤ cfg.bridging_max_dist := not_le.mpr hgt
    have hb : bindStart cfg d st coord =
        ({ st with unmatched_starts := st.unmatched_starts + 1 }, none,
          Status.unmatchedStart) := by
      simp [bindStart, hnomatch, hallow, hnear, hle]
    refine ⟨hb, ?_⟩
    simp [processDevice, hpt, hb]

/-- C5 (solver modelled from the spec, since Graph.ShortestPath is the
external topologicpy library): a device whose coordinate binds exactly to the
destination vertex is recorded with the trivial single-vertex path [v]
(v the destination vertex coordinate), length 0 and status ok. -/
theorem claim5_trivial_path (cfg : Config K) (d : Point → Point → K) (endVid : Nat)
    (st : LoopState K) (si : Nat) (sp : StartPoint) (coord : Point)
    (hpt : sp.point = some coord)
    (hmatch : coord_match_index coord st.verts MATCH_TOL = some endVid) :
    ∃ v, st.verts.get? endVid = some v ∧
      processDevice cfg d (specShortestPath d) endVid st si sp =
        { st with
            solveCalls := st.solveCalls + 1
            success := st.success + 1
            results := st.results ++
              [⟨si, sp.element_id, some 0, [indexOfCoord st.verts v], [v], Status.ok⟩] } := by
  obtain ⟨v, hv, -⟩ := coord_match_index_some_get hmatch
  refine ⟨v, hv, ?_⟩
  have hb : bindStart cfg d st coord = (st, some endVid, Status.ok) := by
    simp [bindStart, hmatch]
  have hv2 : st.verts[endVid]? = some v := by
    rw [← List.get?_eq_getElem?]
    exact hv
  have hsolve : specShortestPath d st.verts st.edges endVid endVid = some [v] := by
    simp [specShortestPath, hv2]
  simp [processDevice, hpt, hb, solveRecord, hsolve, pathLen]

/-- C9 (implicit): when the end point matches no vertex within MATCH_TOL and
either end bridging is disabled or the nearest vertex is strictly farther
than the maximum bridging distance, the whole run fails with the end-unbound
error before any device is processed — the output is an error value carrying
no per-device results. -/
theorem claim9_end_bind_failure_fatal (cfg : Config K) (d : Point → Point → K)
    (solve : Solver) (doc : InputDoc) (ep : Point)
    (hv : doc.vertices ≠ [])
    (he : doc.edges ≠ [])
    (hep : doc.end_point = some ep)
    (hnomatch : coord_match_index ep doc.vertices MATCH_TOL = none)
    (hfail : cfg.allow_bridging_end = false ∨
      ∀ ni nd, nearest_vertex_index d ep doc.vertices = some (ni, nd) →
        cfg.bridging_max_dist < nd) :
    mainModel cfg d solve doc = Except.error RunError.endUnbound := by
  have h0 : (doc.vertices.isEmpty || doc.edges.isEmpty) = false := by
    cases hvv : doc.vertices with
    | nil => exact absurd hvv hv
    | cons a l =>
      cases hee : doc.edges with
      | nil => exact absurd hee he
      | cons b m => simp [hvv, hee]
  unfold mainModel bindEnd
  simp only [h0, Bool.false_eq_true, if_false, hep, hnomatch]
  rcases hfail with hf | hf
  · simp [hf]
  · rcases nearest_vertex_index_some d ep doc.vertices hv with ⟨ni, nd, hn, -⟩
    have hgt := hf ni nd hn
    by_cases hbe : cfg.allow_bridging_end
    · simp [hbe, hn, not_le.mpr hgt]
    · simp [hbe]

/-- C10 (implicit): a start point whose coordinate is missing is recorded as
a failure with status unmatched_start, null length and empty index and
coordinate lists, leaving the graph and solver-call count untouched; and the
device loop always produces exactly one result per start point, so the
remaining devices are still processed. -/
theorem claim10_missing_coord_tolerated (cfg : Config K) (d : Point → Point → K)
    (solve : Solver) (endVid : Nat) (st : LoopState K) (si : Nat) (sp : StartPoint)
    (hpt : sp.point = none) :
    processDevice cfg d solve endVid st si sp =
      { st with
          unmatched_starts := st.unmatched_starts + 1
          fail := st.fail + 1
          results := st.results ++
            [⟨si, sp.element_id, none, [], [], Status.unmatchedStart⟩] } ∧
    ∀ (l : List (Nat × StartPoint)) (st0 : LoopState K),
      (deviceFold cfg d solve endVid st0 l).results.length =
        st0.results.length + l.length := by
  constructor
  · simp [processDevice, hpt]
  · intro l st0
    exact deviceFold_results_length l st0

/-- C4 as amended: a missing destination coordinate (with nonempty vertex and
edge lists, which are checked first) is run-fatal — the run stops with the
missing-end error and produces no per-device results; an edge whose vertex
index is out of range, by contrast, is NOT fatal: it is merely excluded from
the built edge list (every used edge has in-range endpoints) and the run
carries on. -/
theorem claim4_amended_fatality (cfg : Config K) (d : Point → Point → K) (solve : Solver)
    (doc : InputDoc)
    (hv : doc.vertices ≠ []) (he : doc.edges ≠ []) (hmiss : doc.end_point = none) :
    mainModel cfg d solve doc = Except.error RunError.missingEnd ∧
    ∀ (n : Nat) (l : List (Int × Int)) (e : Nat × Nat),
      e ∈ (buildEdges n l).used → e.1 < n ∧ e.2 < n := by
  constructor
  · have h0 : (doc.vertices.isEmpty || doc.edges.isEmpty) = false := by
      cases hvv : doc.vertices with
      | nil => exact absurd hvv hv
      | cons a l =>
        cases hee : doc.edges with
        | nil => exact absurd hee he
        | cons b m => simp [hvv, hee]
    unfold mainModel bindEnd
    simp only [h0, Bool.false_eq_true, if_false, hmiss]
  · intro n l e he'
    exact ⟨((buildEdges_graphOk n l).2 e he').2.1, ((buildEdges_graphOk n l).2 e he').2.2⟩

end ClaimTheorems

/-! Concrete runs used by the witnesses. -/

lemma run1_eval : mainModel cfgQ distSq (specShortestPath distSq) doc1 = Except.ok out1 := by
  norm_num [mainModel, bindEnd, buildEdges, edgeStep, edgeKeyUnord, coord_match_index,
    coordMatchAux, coordWithin, MATCH_TOL, RETRY_TOL, deviceFold, processDevice, bindStart,
    solveRecord, specShortestPath, pathLen, indexOfCoord, initState, mkOutput, cfgQ, doc1,
    out1, List.enum, List.enumFrom, distSq, abs_le, abs_lt]

lemma run4_eval : mainModel cfgQ distSq (specShortestPath distSq) doc4 = Except.ok out4 := by
  norm_num [mainModel, bindEnd, buildEdges, edgeStep, edgeKeyUnord, coord_match_index,
    coordMatchAux, coordWithin, MATCH_TOL, RETRY_TOL, deviceFold, processDevice, bindStart,
    solveRecord, specShortestPath, pathLen, indexOfCoord, initState, mkOutput, cfgQ, doc4,
    out4, List.enum, List.enumFrom, distSq, abs_le, abs_lt]

/-- C4, counterexample to the claim as stated: doc4 contains the edge (0,5)
whose vertex index 5 is out of range of the 2-element vertex list, yet the
run does NOT abort: it completes with one per-device result (the skipped edge
is merely excluded from the graph). -/
theorem claim4_out_of_range_not_fatal :
    ((0 : Int), (5 : Int)) ∈ doc4.edges ∧ (doc4.vertices.length : Int) ≤ 5 ∧
    mainModel cfgQ distSq (specShortestPath distSq) doc4 = Except.ok out4 ∧
    out4.results.length = 1 :=
  ⟨by simp [doc4], by simp [doc4], run4_eval, rfl⟩

/-- Concrete witness for the amended C4: a document with nonempty vertex and
edge lists but no end point aborts with the missing-end error. -/
theorem claim4_amended_fatality_witness :
    mainModel cfgQ distSq (fun _ _ _ _ => none) ⟨[⟨0, 0, 0⟩], [(0, 1)], [], none⟩ =
      Except.error RunError.missingEnd :=
  (claim4_amended_fatality cfgQ distSq (fun _ _ _ _ => none)
    ⟨[⟨0, 0, 0⟩], [(0, 1)], [], none⟩ (by simp) (by simp) rfl).1

/-- Concrete witness for C6: the completed run on doc1 has pairwise-distinct
unordered edge pairs, and its only edge (0,1) is not a self edge. -/
theorem claim6_no_duplicate_edges_witness :
    NoDupEdges out1.final_edges ∧ ((0 : Nat), (1 : Nat)).1 ≠ ((0 : Nat), (1 : Nat)).2 := by
  have h := claim6_no_duplicate_edges cfgQ distSq (specShortestPath distSq) doc1 out1 run1_eval
  exact ⟨h.1, h.2 (0, 1) (by simp [out1])⟩

/-- Concrete witness for C3: the ok result of the doc1 run reports the d-sum
over its reported single-vertex path. -/
theorem claim3_path_length_consistency_witness :
    (⟨0, 7, some 0, [1], [⟨1, 0, 0⟩], Status.ok⟩ : DeviceResult ℚ).length =
      some (pathLen distSq
        (⟨0, 7, some 0, [1], [⟨1, 0, 0⟩], Status.ok⟩ : DeviceResult ℚ).vertex_path_xyz) :=
  claim3_path_length_consistency cfgQ distSq (specShortestPath distSq) doc1 out1 run1_eval
    ⟨0, 7, some 0, [1], [⟨1, 0, 0⟩], Status.ok⟩ (by simp [out1]) (Or.inl rfl)

/-- Concrete witness for C2 (the strictly-beyond branch): a device at squared
distance 9 from the only vertex, with threshold 5, is recorded unmatched with
the state — graph and solver-call count included — otherwise untouched. -/
theorem claim2_bridging_boundary_witness :
    processDevice cfgQ distSq (fun _ _ _ _ => none) 0 (initState [⟨0, 0, 0⟩] []) 0
      ⟨5, some ⟨3, 0, 0⟩⟩ =
      ⟨[⟨0, 0, 0⟩], [], [⟨0, 5, none, [], [], Status.unmatchedStart⟩], 0, 1, 0, 1, 0⟩ := by
  have h := claim2_bridging_boundary cfgQ distSq (fun _ _ _ _ => none) 0
    (initState [⟨0, 0, 0⟩] []) 0 ⟨5, some ⟨3, 0, 0⟩⟩ ⟨3, 0, 0⟩ 0 9
    rfl
    (by norm_num [coord_match_index, coordMatchAux, coordWithin, MATCH_TOL, initState,
      abs_le])
    rfl
    (by norm_num [nearest_vertex_index, nearestAux, distSq, initState])
  have h2 := (h.2 (by norm_num [cfgQ])).2
  simpa [initState] using h2

/-- Concrete witness for C5: a device binding exactly to the destination
vertex index 0 gets the single-vertex path of length 0 with status ok. -/
theorem claim5_trivial_path_witness :
    processDevice cfgQ distSq (specShortestPath distSq) 0
      (initState [⟨1, 0, 0⟩] []) 3 ⟨9, some ⟨1, 0, 0⟩⟩ =
      ⟨[⟨1, 0, 0⟩], [], [⟨3, 9, some 0, [0], [⟨1, 0, 0⟩], Status.ok⟩], 1, 0, 0, 0, 1⟩ := by
  obtain ⟨v, hv, heq⟩ := claim5_trivial_path cfgQ distSq 0 (initState [⟨1, 0, 0⟩] []) 3
    ⟨9, some ⟨1, 0, 0⟩⟩ ⟨1, 0, 0⟩ rfl
    (by norm_num [coord_match_index, coordMatchAux, coordWithin, MATCH_TOL, initState,
      abs_le])
  have hv2 : v = ⟨1, 0, 0⟩ := by simpa [initState] using hv.symm
  subst hv2
  rw [heq]
  norm_num [initState, indexOfCoord, coord_match_index, coordMatchAux, coordWithin,
    MATCH_TOL, RETRY_TOL, abs_le]

/-- Concrete witness for C9: an end point at squared distance 30000 from the
only vertex, with threshold 5, aborts the run with the end-unbound error. -/
theorem claim9_end_bind_failure_fatal_witness :
    mainModel cfgQ distSq (fun _ _ _ _ => none)
      ⟨[⟨0, 0, 0⟩], [(0, 1)], [], some ⟨100, 100, 100⟩⟩ =
      Except.error RunError.endUnbound := by
  refine claim9_end_bind_failure_fatal cfgQ distSq (fun _ _ _ _ => none)
    ⟨[⟨0, 0, 0⟩], [(0, 1)], [], some ⟨100, 100, 100⟩⟩ ⟨100, 100, 100⟩
    (by simp) (by simp) rfl
    (by norm_num [coord_match_index, coordMatchAux, coordWithin, MATCH_TOL, abs_le])
    (Or.inr ?_)
  intro ni nd hn
  have h30 : nearest_vertex_index distSq (⟨100, 100, 100⟩ : Point) [⟨0, 0, 0⟩] =
      some (0, 30000) := by
    norm_num [nearest_vertex_index, nearestAux, distSq]
  rw [h30] at hn
  obtain ⟨rfl, rfl⟩ : (0 : Nat) = ni ∧ (30000 : ℚ) = nd := by
    simpa [Prod.ext_iff] using hn
  norm_num [cfgQ]

/-- Concrete witness for C10: a start point with no coordinate is recorded
unmatched and counted as a failure, the state otherwise untouched. -/
theorem claim10_missing_coord_tolerated_witness :
    processDevice cfgQ distSq (fun _ _ _ _ => none) 0 (initState [⟨0, 0, 0⟩] []) 2
      ⟨11, none⟩ =
      ⟨[⟨0, 0, 0⟩], [], [⟨2, 11, none, [], [], Status.unmatchedStart⟩], 0, 1, 0, 1, 0⟩ := by
  have h := (claim10_missing_coord_tolerated cfgQ distSq (fun _ _ _ _ => none) 0
    (initState [⟨0, 0, 0⟩] []) 2 ⟨11, none⟩ rfl).1
  simpa [initState] using h

end WWT
